import Mathlib

/-!
Shallow embedding of src/src/md5.cpp (Colin Plumb's MD5 implementation,
as modified by Ian Jackson).  Machine integers are modelled as Nat with
explicit reduction modulo 2 ^ 32 (uint32_t arithmetic) and 2 ^ 64 (the
64-bit byte counter).  The 64-byte block buffer is modelled as a list of
byte values; byteSwap (source lines 37-44) normalizes the buffer bytes
into little-endian-packed 32-bit words, which is rendered here by the
conversion bytesToWords applied at each call of the compression step.
-/

/-- Reduction modulo 2 ^ 32, the wrap-around of uint32_t arithmetic. -/
def mask32 (x : Nat) : Nat := x % 2 ^ 32

/-- Source line 138: nonlinear function of round group 1. -/
def F1 (x y z : Nat) : Nat := z ^^^ (x &&& (y ^^^ z))

/-- Source line 139: F2 is F1 with rotated operands. -/
def F2 (x y z : Nat) : Nat := F1 z x y

/-- Source line 140: round group 3. -/
def F3 (x y z : Nat) : Nat := x ^^^ y ^^^ z

/-- Source line 141: round group 4; the uint32_t complement of z is
    rendered as z XOR 0xFFFFFFFF. -/
def F4 (x y z : Nat) : Nat := y ^^^ (x ||| (z ^^^ 0xFFFFFFFF))

/-- Left rotation of a 32-bit word by s (0 < s < 32): the expression
    (w shl s or w shr (32 - s)) of source line 145, with the left shift
    wrapped to 32 bits as uint32_t arithmetic does. -/
def rotl32 (w s : Nat) : Nat := mask32 (w <<< s) ||| (w >>> (32 - s))

/-- Source lines 144-145, the macro MD5STEP(f,w,x,y,z,m,s):
    w += f(x,y,z) + m; w = (w shl s or w shr (32-s)) + x, on uint32_t.
    The argument m is the wrapped sum of a message word and a round
    constant, exactly as at the 64 call sites in md5Transform. -/
def MD5STEP (f : Nat → Nat → Nat → Nat) (w x y z m s : Nat) : Nat :=
  mask32 (rotl32 (mask32 (w + f x y z + m)) s + x)

/-- One little-endian-packed word of byteSwap (source line 42):
    p[3] shl 24 or p[2] shl 16 or p[1] shl 8 or p[0]. -/
def pack4 (b0 b1 b2 b3 : Nat) : Nat := b3 <<< 24 ||| b2 <<< 16 ||| b1 <<< 8 ||| b0

/-- Source lines 37-44, byteSwap as a pure conversion: read a byte
    buffer as consecutive little-endian-packed 32-bit words. -/
def bytesToWords : List Nat → List Nat
  | b0 :: b1 :: b2 :: b3 :: rest => pack4 b0 b1 b2 b3 :: bytesToWords rest
  | _ => []

/-- Little-endian serialization of 32-bit words to bytes; this is the
    byte view of the uint32 state produced by byteSwap plus memcpy at
    source lines 130-131. -/
def wordsToBytes : List Nat → List Nat
  | [] => []
  | w :: ws =>
    w % 256 :: w / 2 ^ 8 % 256 :: w / 2 ^ 16 % 256 :: w / 2 ^ 24 % 256 :: wordsToBytes ws

/-- Source lines 152-233, md5Transform: the compression step.  The 64
    MD5STEP lines below are the macro expansions of the source in order;
    register reads and the final additions are uint32_t operations. -/
def md5Transform (buf blk : List Nat) : List Nat :=
  let a := buf.getD 0 0
  let b := buf.getD 1 0
  let c := buf.getD 2 0
  let d := buf.getD 3 0
  let a := MD5STEP F1 a b c d (mask32 (blk.getD 0 0 + 0xd76aa478)) 7
  let d := MD5STEP F1 d a b c (mask32 (blk.getD 1 0 + 0xe8c7b756)) 12
  let c := MD5STEP F1 c d a b (mask32 (blk.getD 2 0 + 0x242070db)) 17
  let b := MD5STEP F1 b c d a (mask32 (blk.getD 3 0 + 0xc1bdceee)) 22
  let a := MD5STEP F1 a b c d (mask32 (blk.getD 4 0 + 0xf57c0faf)) 7
  let d := MD5STEP F1 d a b c (mask32 (blk.getD 5 0 + 0x4787c62a)) 12
  let c := MD5STEP F1 c d a b (mask32 (blk.getD 6 0 + 0xa8304613)) 17
  let b := MD5STEP F1 b c d a (mask32 (blk.getD 7 0 + 0xfd469501)) 22
  let a := MD5STEP F1 a b c d (mask32 (blk.getD 8 0 + 0x698098d8)) 7
  let d := MD5STEP F1 d a b c (mask32 (blk.getD 9 0 + 0x8b44f7af)) 12
  let c := MD5STEP F1 c d a b (mask32 (blk.getD 10 0 + 0xffff5bb1)) 17
  let b := MD5STEP F1 b c d a (mask32 (blk.getD 11 0 + 0x895cd7be)) 22
  let a := MD5STEP F1 a b c d (mask32 (blk.getD 12 0 + 0x6b901122)) 7
  let d := MD5STEP F1 d a b c (mask32 (blk.getD 13 0 + 0xfd987193)) 12
  let c := MD5STEP F1 c d a b (mask32 (blk.getD 14 0 + 0xa679438e)) 17
  let b := MD5STEP F1 b c d a (mask32 (blk.getD 15 0 + 0x49b40821)) 22
  let a := MD5STEP F2 a b c d (mask32 (blk.getD 1 0 + 0xf61e2562)) 5
  let d := MD5STEP F2 d a b c (mask32 (blk.getD 6 0 + 0xc040b340)) 9
  let c := MD5STEP F2 c d a b (mask32 (blk.getD 11 0 + 0x265e5a51)) 14
  let b := MD5STEP F2 b c d a (mask32 (blk.getD 0 0 + 0xe9b6c7aa)) 20
  let a := MD5STEP F2 a b c d (mask32 (blk.getD 5 0 + 0xd62f105d)) 5
  let d := MD5STEP F2 d a b c (mask32 (blk.getD 10 0 + 0x02441453)) 9
  let c := MD5STEP F2 c d a b (mask32 (blk.getD 15 0 + 0xd8a1e681)) 14
  let b := MD5STEP F2 b c d a (mask32 (blk.getD 4 0 + 0xe7d3fbc8)) 20
  let a := MD5STEP F2 a b c d (mask32 (blk.getD 9 0 + 0x21e1cde6)) 5
  let d := MD5STEP F2 d a b c (mask32 (blk.getD 14 0 + 0xc33707d6)) 9
  let c := MD5STEP F2 c d a b (mask32 (blk.getD 3 0 + 0xf4d50d87)) 14
  let b := MD5STEP F2 b c d a (mask32 (blk.getD 8 0 + 0x455a14ed)) 20
  let a := MD5STEP F2 a b c d (mask32 (blk.getD 13 0 + 0xa9e3e905)) 5
  let d := MD5STEP F2 d a b c (mask32 (blk.getD 2 0 + 0xfcefa3f8)) 9
  let c := MD5STEP F2 c d a b (mask32 (blk.getD 7 0 + 0x676f02d9)) 14
  let b := MD5STEP F2 b c d a (mask32 (blk.getD 12 0 + 0x8d2a4c8a)) 20
  let a := MD5STEP F3 a b c d (mask32 (blk.getD 5 0 + 0xfffa3942)) 4
  let d := MD5STEP F3 d a b c (mask32 (blk.getD 8 0 + 0x8771f681)) 11
  let c := MD5STEP F3 c d a b (mask32 (blk.getD 11 0 + 0x6d9d6122)) 16
  let b := MD5STEP F3 b c d a (mask32 (blk.getD 14 0 + 0xfde5380c)) 23
  let a := MD5STEP F3 a b c d (mask32 (blk.getD 1 0 + 0xa4beea44)) 4
  let d := MD5STEP F3 d a b c (mask32 (blk.getD 4 0 + 0x4bdecfa9)) 11
  let c := MD5STEP F3 c d a b (mask32 (blk.getD 7 0 + 0xf6bb4b60)) 16
  let b := MD5STEP F3 b c d a (mask32 (blk.getD 10 0 + 0xbebfbc70)) 23
  let a := MD5STEP F3 a b c d (mask32 (blk.getD 13 0 + 0x289b7ec6)) 4
  let d := MD5STEP F3 d a b c (mask32 (blk.getD 0 0 + 0xeaa127fa)) 11
  let c := MD5STEP F3 c d a b (mask32 (blk.getD 3 0 + 0xd4ef3085)) 16
  let b := MD5STEP F3 b c d a (mask32 (blk.getD 6 0 + 0x04881d05)) 23
  let a := MD5STEP F3 a b c d (mask32 (blk.getD 9 0 + 0xd9d4d039)) 4
  let d := MD5STEP F3 d a b c (mask32 (blk.getD 12 0 + 0xe6db99e5)) 11
  let c := MD5STEP F3 c d a b (mask32 (blk.getD 15 0 + 0x1fa27cf8)) 16
  let b := MD5STEP F3 b c d a (mask32 (blk.getD 2 0 + 0xc4ac5665)) 23
  let a := MD5STEP F4 a b c d (mask32 (blk.getD 0 0 + 0xf4292244)) 6
  let d := MD5STEP F4 d a b c (mask32 (blk.getD 7 0 + 0x432aff97)) 10
  let c := MD5STEP F4 c d a b (mask32 (blk.getD 14 0 + 0xab9423a7)) 15
  let b := MD5STEP F4 b c d a (mask32 (blk.getD 5 0 + 0xfc93a039)) 21
  let a := MD5STEP F4 a b c d (mask32 (blk.getD 12 0 + 0x655b59c3)) 6
  let d := MD5STEP F4 d a b c (mask32 (blk.getD 3 0 + 0x8f0ccc92)) 10
  let c := MD5STEP F4 c d a b (mask32 (blk.getD 10 0 + 0xffeff47d)) 15
  let b := MD5STEP F4 b c d a (mask32 (blk.getD 1 0 + 0x85845dd1)) 21
  let a := MD5STEP F4 a b c d (mask32 (blk.getD 8 0 + 0x6fa87e4f)) 6
  let d := MD5STEP F4 d a b c (mask32 (blk.getD 15 0 + 0xfe2ce6e0)) 10
  let c := MD5STEP F4 c d a b (mask32 (blk.getD 6 0 + 0xa3014314)) 15
  let b := MD5STEP F4 b c d a (mask32 (blk.getD 13 0 + 0x4e0811a1)) 21
  let a := MD5STEP F4 a b c d (mask32 (blk.getD 4 0 + 0xf7537e82)) 6
  let d := MD5STEP F4 d a b c (mask32 (blk.getD 11 0 + 0xbd3af235)) 10
  let c := MD5STEP F4 c d a b (mask32 (blk.getD 2 0 + 0x2ad7d2bb)) 15
  let b := MD5STEP F4 b c d a (mask32 (blk.getD 9 0 + 0xeb86d391)) 21
  [mask32 (buf.getD 0 0 + a), mask32 (buf.getD 1 0 + b),
   mask32 (buf.getD 2 0 + c), mask32 (buf.getD 3 0 + d)]

/-- Modelled from the spec: the struct md5Context is declared in md5.h,
    which is not under src/; the fields are reconstructed from their uses
    in md5.cpp and from the spec data model.  buf holds the 4 running
    uint32 state words; bytes is the total byte counter, a 64-bit
    unsigned integer per the spec (so update wraps it modulo 2 ^ 64);
    inbuf is the byte view of the 64-byte block buffer the source
    calls in. -/
structure md5Context where
  buf : List Nat
  bytes : Nat
  inbuf : List Nat
deriving DecidableEq

/-- The all-zero context value: it models both the fresh stack
    allocation of the one-shot md5 (source line 27) and the context
    wiped by memset at source line 132. -/
def md5CtxZero : md5Context := ⟨[0, 0, 0, 0], 0, List.replicate 64 0⟩

/-- Source lines 50-57, md5Init: set the state words to the
    initialization constants and the byte count to 0; the block buffer
    is left untouched. -/
def md5Init (ctx : md5Context) : md5Context :=
  { ctx with buf := [0x67452301, 0xefcdab89, 0x98badcfe, 0x10325476], bytes := 0 }

/-- memcpy of data into the block buffer at a byte offset. -/
def writeBytes (l : List Nat) (off : Nat) (data : List Nat) : List Nat :=
  l.take off ++ data ++ l.drop (off + data.length)

/-- Bounds-checked single-byte store; none models an out-of-bounds
    write. -/
def setByte (l : List Nat) (i v : Nat) : Option (List Nat) :=
  if i < l.length then some (l.set i v) else none

/-- Bounds-checked memset(l + off, 0, n) on the byte buffer. -/
def memsetBytes (l : List Nat) (off n : Nat) : Option (List Nat) :=
  if off + n ≤ l.length then
    some (l.take off ++ List.replicate n 0 ++ l.drop (off + n))
  else none

/-- Source lines 85-91, the chunk loop of md5Update: it runs once per
    full 64-byte chunk, that is len / 64 times; the iteration count is
    passed explicitly so the loop is structural recursion.  Each pass
    copies the next 64 bytes into the block buffer and runs the
    compression step on it. -/
def processChunksK : Nat → List Nat → List Nat → List Nat → List Nat × List Nat × List Nat
  | 0, st, inb, d => (st, inb, d)
  | k + 1, st, inb, d =>
    let inb1 := writeBytes inb 0 (d.take 64)
    processChunksK k (md5Transform st (bytesToWords inb1)) inb1 (d.drop 64)

/-- The chunk loop with its iteration count len / 64. -/
def processChunks (st inb d : List Nat) : List Nat × List Nat × List Nat :=
  processChunksK (d.length / 64) st inb d

/-- Source lines 63-95, md5Update.  t is the space left in the block
    buffer (1..64); the byte counter is a 64-bit size_t accumulation;
    the first branch only buffers, the second completes the partial
    block, transforms it, runs the chunk loop and buffers the rest. -/
def md5Update (ctx : md5Context) (data : List Nat) : md5Context :=
  let t := 64 - ctx.bytes % 64
  let bytes1 := (ctx.bytes + data.length) % 2 ^ 64
  if t > data.length then
    { ctx with bytes := bytes1, inbuf := writeBytes ctx.inbuf (64 - t) data }
  else
    let inb1 := writeBytes ctx.inbuf (64 - t) (data.take t)
    let st1 := md5Transform ctx.buf (bytesToWords inb1)
    let r := processChunks st1 inb1 (data.drop t)
    { buf := r.1, bytes := bytes1, inbuf := writeBytes r.2.1 0 r.2.2 }

/-- Source lines 126-127: the two trailer words, ctx.bytes shl 3 on the
    64-bit counter truncated to 32 bits, and ctx.bytes shr 29 truncated
    to 32 bits. -/
def trailerWords (bytes : Nat) : List Nat :=
  [((bytes <<< 3) % 2 ^ 64) &&& 0xFFFFFFFF, (bytes >>> 29) &&& 0xFFFFFFFF]

/-- Source lines 122-132 of md5Final: byteSwap the first 14 words of the
    block buffer, append the bit-count trailer words, run the final
    compression step, serialize the state little-endian into the digest,
    and wipe the context (memset(ctx, 0, sizeof(*ctx))). -/
def md5FinalWords (st inb : List Nat) (bytes : Nat) : List Nat × md5Context :=
  let ws := bytesToWords (inb.take 56) ++ trailerWords bytes
  (wordsToBytes (md5Transform st ws), md5CtxZero)

/-- Source lines 101-133, md5Final, with bounds-checked buffer writes:
    write the 0x80 marker at offset bytes mod 64, then either zero-pad
    to offset 56 directly, or (when 56 - 1 - count is negative) zero the
    rest of the block, transform it, and zero the first 56 bytes of a
    fresh block; then append the trailer and transform once more. -/
def md5Final (ctx : md5Context) : Option (List Nat × md5Context) :=
  let count := ctx.bytes % 64
  (setByte ctx.inbuf count 0x80).bind fun p1 =>
    let count1 : Int := 56 - 1 - (count : Int)
    if count1 < 0 then
      (memsetBytes p1 (count + 1) (count1 + 8).toNat).bind fun p2 =>
        let st1 := md5Transform ctx.buf (bytesToWords p2)
        (memsetBytes p2 0 56).bind fun p3 =>
          some (md5FinalWords st1 p3 ctx.bytes)
    else
      (memsetBytes p1 (count + 1) count1.toNat).bind fun p2 =>
        some (md5FinalWords ctx.buf p2 ctx.bytes)

/-- Source lines 25-32, the one-shot md5.  The local context is a fresh
    stack allocation, modelled by the zero context; the digest does not
    depend on the initial buffer contents. -/
def md5 (data : List Nat) : Option (List Nat) :=
  (md5Final (md5Update (md5Init md5CtxZero) data)).map Prod.fst

/-! Spec-side definitions, written from the words of the specification,
    to be compared with the definitions translated from the source. -/

/-- Spec, round group 1: F = d XOR (b AND (c XOR d)). -/
def F1spec (b c d : Nat) : Nat := d ^^^ (b &&& (c ^^^ d))

/-- Spec, round group 2: F = c XOR (d AND (b XOR c)). -/
def F2spec (b c d : Nat) : Nat := c ^^^ (d &&& (b ^^^ c))

/-- Spec, round group 3: F = b XOR c XOR d. -/
def F3spec (b c d : Nat) : Nat := b ^^^ c ^^^ d

/-- Spec, round group 4: F = c XOR (b OR (NOT d)), 32-bit complement. -/
def F4spec (b c d : Nat) : Nat := c ^^^ (b ||| (d ^^^ 0xFFFFFFFF))

/-- One entry of the fixed per-round table of the spec: the nonlinear
    function of the round's group, the input word index, the round
    constant, and the left-rotation amount. -/
structure MD5Round where
  f : Nat → Nat → Nat → Nat
  idx : Nat
  k : Nat
  s : Nat

/-- Spec: each round computes b + rotate_left(a + F(b,c,d) + word[index]
    + constant, rotation) on 32-bit words and then rotates the register
    roles (a,b,c,d) to (d,a,b,c). -/
def md5RoundSpec (blk : List Nat) (st : Nat × Nat × Nat × Nat) (e : MD5Round) :
    Nat × Nat × Nat × Nat :=
  (st.2.2.2,
   mask32 (rotl32 (mask32 (st.1 + e.f st.2.1 st.2.2.1 st.2.2.2 +
     (blk.getD e.idx 0 + e.k))) e.s + st.2.1),
   st.2.1, st.2.2.1)

/-- The fixed per-round index/constant/rotation table: 64 rounds in 4
    groups of 16, rotation sets 7,12,17,22 then 5,9,14,20 then
    4,11,16,23 then 6,10,15,21. -/
def md5RoundTable : List MD5Round := [
  ⟨F1spec, 0, 0xd76aa478, 7⟩,
  ⟨F1spec, 1, 0xe8c7b756, 12⟩,
  ⟨F1spec, 2, 0x242070db, 17⟩,
  ⟨F1spec, 3, 0xc1bdceee, 22⟩,
  ⟨F1spec, 4, 0xf57c0faf, 7⟩,
  ⟨F1spec, 5, 0x4787c62a, 12⟩,
  ⟨F1spec, 6, 0xa8304613, 17⟩,
  ⟨F1spec, 7, 0xfd469501, 22⟩,
  ⟨F1spec, 8, 0x698098d8, 7⟩,
  ⟨F1spec, 9, 0x8b44f7af, 12⟩,
  ⟨F1spec, 10, 0xffff5bb1, 17⟩,
  ⟨F1spec, 11, 0x895cd7be, 22⟩,
  ⟨F1spec, 12, 0x6b901122, 7⟩,
  ⟨F1spec, 13, 0xfd987193, 12⟩,
  ⟨F1spec, 14, 0xa679438e, 17⟩,
  ⟨F1spec, 15, 0x49b40821, 22⟩,
  ⟨F2spec, 1, 0xf61e2562, 5⟩,
  ⟨F2spec, 6, 0xc040b340, 9⟩,
  ⟨F2spec, 11, 0x265e5a51, 14⟩,
  ⟨F2spec, 0, 0xe9b6c7aa, 20⟩,
  ⟨F2spec, 5, 0xd62f105d, 5⟩,
  ⟨F2spec, 10, 0x02441453, 9⟩,
  ⟨F2spec, 15, 0xd8a1e681, 14⟩,
  ⟨F2spec, 4, 0xe7d3fbc8, 20⟩,
  ⟨F2spec, 9, 0x21e1cde6, 5⟩,
  ⟨F2spec, 14, 0xc33707d6, 9⟩,
  ⟨F2spec, 3, 0xf4d50d87, 14⟩,
  ⟨F2spec, 8, 0x455a14ed, 20⟩,
  ⟨F2spec, 13, 0xa9e3e905, 5⟩,
  ⟨F2spec, 2, 0xfcefa3f8, 9⟩,
  ⟨F2spec, 7, 0x676f02d9, 14⟩,
  ⟨F2spec, 12, 0x8d2a4c8a, 20⟩,
  ⟨F3spec, 5, 0xfffa3942, 4⟩,
  ⟨F3spec, 8, 0x8771f681, 11⟩,
  ⟨F3spec, 11, 0x6d9d6122, 16⟩,
  ⟨F3spec, 14, 0xfde5380c, 23⟩,
  ⟨F3spec, 1, 0xa4beea44, 4⟩,
  ⟨F3spec, 4, 0x4bdecfa9, 11⟩,
  ⟨F3spec, 7, 0xf6bb4b60, 16⟩,
  ⟨F3spec, 10, 0xbebfbc70, 23⟩,
  ⟨F3spec, 13, 0x289b7ec6, 4⟩,
  ⟨F3spec, 0, 0xeaa127fa, 11⟩,
  ⟨F3spec, 3, 0xd4ef3085, 16⟩,
  ⟨F3spec, 6, 0x04881d05, 23⟩,
  ⟨F3spec, 9, 0xd9d4d039, 4⟩,
  ⟨F3spec, 12, 0xe6db99e5, 11⟩,
  ⟨F3spec, 15, 0x1fa27cf8, 16⟩,
  ⟨F3spec, 2, 0xc4ac5665, 23⟩,
  ⟨F4spec, 0, 0xf4292244, 6⟩,
  ⟨F4spec, 7, 0x432aff97, 10⟩,
  ⟨F4spec, 14, 0xab9423a7, 15⟩,
  ⟨F4spec, 5, 0xfc93a039, 21⟩,
  ⟨F4spec, 12, 0x655b59c3, 6⟩,
  ⟨F4spec, 3, 0x8f0ccc92, 10⟩,
  ⟨F4spec, 10, 0xffeff47d, 15⟩,
  ⟨F4spec, 1, 0x85845dd1, 21⟩,
  ⟨F4spec, 8, 0x6fa87e4f, 6⟩,
  ⟨F4spec, 15, 0xfe2ce6e0, 10⟩,
  ⟨F4spec, 6, 0xa3014314, 15⟩,
  ⟨F4spec, 13, 0x4e0811a1, 21⟩,
  ⟨F4spec, 4, 0xf7537e82, 6⟩,
  ⟨F4spec, 11, 0xbd3af235, 10⟩,
  ⟨F4spec, 2, 0x2ad7d2bb, 15⟩,
  ⟨F4spec, 9, 0xeb86d391, 21⟩,
]

/-- Spec rendering of the compression step: seed the four working
    registers from the state, apply the 64 table rounds with cycling
    register roles, then add the registers to the original state words
    modulo 2 ^ 32. -/
def md5TransformSpec (buf blk : List Nat) : List Nat :=
  let stR := md5RoundTable.foldl (md5RoundSpec blk)
    (buf.getD 0 0, buf.getD 1 0, buf.getD 2 0, buf.getD 3 0)
  [mask32 (buf.getD 0 0 + stR.1), mask32 (buf.getD 1 0 + stR.2.1),
   mask32 (buf.getD 2 0 + stR.2.2.1), mask32 (buf.getD 3 0 + stR.2.2.2)]

/-- Fold of the compression step over the consecutive full 64-byte
    blocks of a byte stream, k blocks at a time (structural form). -/
def absorbK : Nat → List Nat → List Nat → List Nat
  | 0, st, _ => st
  | k + 1, st, d => absorbK k (md5Transform st (bytesToWords (d.take 64))) (d.drop 64)

/-- Fold of the compression step over all full 64-byte blocks of a byte
    stream; trailing bytes that do not complete a block are ignored. -/
def absorb (st d : List Nat) : List Nat := absorbK (d.length / 64) st d

/-- The four MD5 initialization constants (source lines 52-55). -/
def initWords : List Nat := [0x67452301, 0xefcdab89, 0x98badcfe, 0x10325476]

/-- Number of zero bytes of padding for a stream of n bytes: the least
    z with (n + 1 + z) mod 64 = 56, per the spec padding rule. -/
def padZeros (n : Nat) : Nat := (119 - n % 64) % 64

/-- Spec padding: append 0x80, then zero bytes until the length modulo
    64 equals 56, then the 8-byte trailer holding the total bit count
    (low 64 bits only) as two little-endian 32-bit words, low first. -/
def md5pad (S : List Nat) : List Nat :=
  S ++ 0x80 :: (List.replicate (padZeros S.length) 0 ++
    wordsToBytes [S.length * 8 % 2 ^ 64 % 2 ^ 32, S.length * 8 % 2 ^ 64 / 2 ^ 32])

/-- Spec digest of a byte stream: absorb every block of the padded
    stream from the initial state and serialize little-endian. -/
def md5digestSpec (S : List Nat) : List Nat :=
  wordsToBytes (absorb initWords (md5pad S))

/-- The accumulator ctx represents the absorbed byte stream S: the block
    buffer has its 64 bytes, the counter is the stream length modulo
    2 ^ 64, the state words are the absorption of the full blocks of S,
    and the meaningful buffer prefix is the unprocessed tail of S. -/
def reps (S : List Nat) (ctx : md5Context) : Prop :=
  ctx.inbuf.length = 64 ∧
  ctx.bytes = S.length % 2 ^ 64 ∧
  ctx.buf = absorb initWords S ∧
  ctx.inbuf.take (S.length % 64) = S.drop (64 * (S.length / 64))

/-- Number of md5Transform invocations performed by one md5Update call,
    read off the source: the buffering branch performs none; the other
    branch performs one for the completed partial block plus one per
    chunk-loop iteration. -/
def md5UpdateCalls (ctx : md5Context) (data : List Nat) : Nat :=
  let t := 64 - ctx.bytes % 64
  if t > data.length then 0 else 1 + (data.length - t) / 64

/-- Total number of md5Transform invocations over a sequence of
    md5Update calls. -/
def md5UpdateCallsFold : List (List Nat) → md5Context → Nat
  | [], _ => 0
  | p :: ps, ctx => md5UpdateCalls ctx p + md5UpdateCallsFold ps (md5Update ctx p)


/-! Arithmetic and bitwise helper lemmas. -/

theorem mask32_add_mask32 (a b : Nat) : mask32 (a + mask32 b) = mask32 (a + b) := by
  simp [mask32, Nat.add_mod]

theorem pack4_le_bytes (w : Nat) :
    pack4 (w % 2 ^ 8) (w / 2 ^ 8 % 2 ^ 8) (w / 2 ^ 16 % 2 ^ 8) (w / 2 ^ 24 % 2 ^ 8) =
      w % 2 ^ 32 := by
  apply Nat.eq_of_testBit_eq
  intro i
  have e8 : w / 2 ^ 8 = w >>> 8 := (Nat.shiftRight_eq_div_pow w 8).symm
  have e16 : w / 2 ^ 16 = w >>> 16 := (Nat.shiftRight_eq_div_pow w 16).symm
  have e24 : w / 2 ^ 24 = w >>> 24 := (Nat.shiftRight_eq_div_pow w 24).symm
  rw [pack4, e8, e16, e24]
  simp only [Nat.testBit_lor, Nat.testBit_shiftLeft, Nat.testBit_mod_two_pow,
    Nat.testBit_shiftRight]
  rcases Nat.lt_or_ge i 8 with h8 | h8
  · simp [show ¬ (i ≥ 8) by omega, show ¬ (i ≥ 16) by omega, show ¬ (i ≥ 24) by omega,
      show i < 32 by omega, show i < 8 by omega]
  rcases Nat.lt_or_ge i 16 with h16 | h16
  · simp [show i ≥ 8 by omega, show ¬ (i ≥ 16) by omega, show ¬ (i ≥ 24) by omega,
      show i < 32 by omega, show i - 8 < 8 by omega, show ¬ (i < 8) by omega,
      show 8 + (i - 8) = i by omega]
  rcases Nat.lt_or_ge i 24 with h24 | h24
  · simp [show i ≥ 8 by omega, show i ≥ 16 by omega, show ¬ (i ≥ 24) by omega,
      show i < 32 by omega, show ¬ (i - 8 < 8) by omega, show i - 16 < 8 by omega,
      show ¬ (i < 8) by omega, show 16 + (i - 16) = i by omega]
  rcases Nat.lt_or_ge i 32 with h32 | h32
  · simp [show i ≥ 8 by omega, show i ≥ 16 by omega, show i ≥ 24 by omega,
      show i < 32 by omega, show ¬ (i - 8 < 8) by omega, show ¬ (i - 16 < 8) by omega,
      show i - 24 < 8 by omega, show ¬ (i < 8) by omega, show 24 + (i - 24) = i by omega]
  · simp [show i ≥ 8 by omega, show i ≥ 16 by omega, show i ≥ 24 by omega,
      show ¬ (i < 32) by omega, show ¬ (i - 8 < 8) by omega, show ¬ (i - 16 < 8) by omega,
      show ¬ (i - 24 < 8) by omega, show ¬ (i < 8) by omega]

theorem bytesToWords_wordsToBytes_two (w1 w2 : Nat) (h1 : w1 < 2 ^ 32) (h2 : w2 < 2 ^ 32) :
    bytesToWords (wordsToBytes [w1, w2]) = [w1, w2] := by
  have e : (256 : Nat) = 2 ^ 8 := by norm_num
  simp only [wordsToBytes, bytesToWords, e]
  rw [pack4_le_bytes, pack4_le_bytes, Nat.mod_eq_of_lt h1, Nat.mod_eq_of_lt h2]

theorem trailerWords_stored (n : Nat) :
    trailerWords (n % 2 ^ 64) = [n * 8 % 2 ^ 64 % 2 ^ 32, n * 8 % 2 ^ 64 / 2 ^ 32] := by
  have hm : (0xFFFFFFFF : Nat) = 2 ^ 32 - 1 := by norm_num
  simp only [trailerWords, hm, Nat.shiftLeft_eq, Nat.shiftRight_eq_div_pow,
    Nat.and_pow_two_sub_one_eq_mod]
  have g1 : n % 2 ^ 64 * 2 ^ 3 % 2 ^ 64 % 2 ^ 32 = n * 8 % 2 ^ 64 % 2 ^ 32 := by omega
  have g2 : n % 2 ^ 64 / 2 ^ 29 % 2 ^ 32 = n * 8 % 2 ^ 64 / 2 ^ 32 := by omega
  rw [g1, g2]

/-! Buffer write helper lemmas. -/

theorem writeBytes_length (l : List Nat) (off : Nat) (d : List Nat)
    (h : off + d.length ≤ l.length) : (writeBytes l off d).length = l.length := by
  simp [writeBytes]
  omega

theorem writeBytes_nil (l : List Nat) (off : Nat) : writeBytes l off [] = l := by
  simp [writeBytes]

theorem writeBytes_full (l d : List Nat) (h : l.length ≤ d.length) :
    writeBytes l 0 d = d := by
  simp [writeBytes, List.drop_eq_nil_of_le h]

theorem writeBytes_take (l : List Nat) (off : Nat) (d : List Nat) (h : off ≤ l.length) :
    (writeBytes l off d).take (off + d.length) = l.take off ++ d := by
  rw [writeBytes, List.append_assoc, List.take_append_eq_append_take]
  have h1 : (l.take off).length = off := by simp; omega
  rw [List.take_of_length_le (by omega), h1]
  congr 1
  have h2 : off + d.length - off = d.length := by omega
  rw [h2, List.take_left]

/-! Lemmas about absorb, the fold of the compression step over full
    blocks. -/

theorem absorb_of_lt (st d : List Nat) (h : d.length < 64) : absorb st d = st := by
  rw [absorb, Nat.div_eq_of_lt h]
  rfl

theorem absorb_step (st d : List Nat) (h : 64 ≤ d.length) :
    absorb st d = absorb (md5Transform st (bytesToWords (d.take 64))) (d.drop 64) := by
  rw [absorb, absorb, show d.length / 64 = (d.drop 64).length / 64 + 1 by simp; omega]
  rfl

theorem absorb_append : ∀ (n : Nat) (x y st : List Nat), x.length = n → 64 ∣ n →
    absorb st (x ++ y) = absorb (absorb st x) y := by
  intro n
  induction n using Nat.strong_induction_on with
  | _ n ih =>
    intro x y st hlen hdvd
    by_cases h : 64 ≤ n
    · have hx : 64 ≤ x.length := by omega
      rw [absorb_step st (x ++ y) (by simp; omega), absorb_step st x hx,
        List.take_append_of_le_length hx, List.drop_append_of_le_length hx]
      exact ih (n - 64) (by omega) (x.drop 64) y _ (by simp; omega) (by omega)
    · have hn : n = 0 := by omega
      have hx : x = [] := List.eq_nil_of_length_eq_zero (by omega)
      subst hx
      rw [absorb_of_lt st [] (by simp), List.nil_append]

/-! The chunk loop processes exactly the full blocks. -/

theorem processChunksK_spec : ∀ (k : Nat) (st inb d : List Nat), inb.length = 64 →
    d.length / 64 = k →
    (processChunksK k st inb d).1 = absorb st d ∧
    (processChunksK k st inb d).2.1.length = 64 ∧
    (processChunksK k st inb d).2.2 = d.drop (64 * k) := by
  intro k
  induction k with
  | zero =>
    intro st inb d hi hd
    exact ⟨(absorb_of_lt st d (by omega)).symm, hi, rfl⟩
  | succ k ih =>
    intro st inb d hi hd
    have hlen : 64 ≤ d.length := by omega
    have htk : (d.take 64).length = 64 := by simp; omega
    have hw : writeBytes inb 0 (d.take 64) = d.take 64 := writeBytes_full inb _ (by omega)
    have hdl : (d.drop 64).length / 64 = k := by simp; omega
    have h := ih (md5Transform st (bytesToWords (d.take 64))) (d.take 64) (d.drop 64) htk hdl
    simp only [processChunksK, hw]
    refine ⟨?_, h.2.1, ?_⟩
    · rw [h.1, ← absorb_step st d hlen]
    · rw [h.2.2, List.drop_drop]
      congr 1
      omega

/-! Branch equations and field facts for md5Update. -/

theorem md5Update_eq_buffer (ctx : md5Context) (data : List Nat)
    (h : 64 - ctx.bytes % 64 > data.length) :
    md5Update ctx data = md5Context.mk ctx.buf ((ctx.bytes + data.length) % 2 ^ 64)
      (writeBytes ctx.inbuf (64 - (64 - ctx.bytes % 64)) data) := by
  simp only [md5Update]
  rw [if_pos h]

theorem md5Update_eq_blocks (ctx : md5Context) (data : List Nat)
    (h : ¬ 64 - ctx.bytes % 64 > data.length) :
    md5Update ctx data =
      (let inb1 := writeBytes ctx.inbuf (64 - (64 - ctx.bytes % 64))
        (data.take (64 - ctx.bytes % 64))
       let r := processChunks (md5Transform ctx.buf (bytesToWords inb1)) inb1
        (data.drop (64 - ctx.bytes % 64))
       md5Context.mk r.1 ((ctx.bytes + data.length) % 2 ^ 64)
         (writeBytes r.2.1 0 r.2.2)) := by
  simp only [md5Update]
  rw [if_neg h]

theorem md5Update_bytes (ctx : md5Context) (data : List Nat) :
    (md5Update ctx data).bytes = (ctx.bytes + data.length) % 2 ^ 64 := by
  by_cases h : 64 - ctx.bytes % 64 > data.length
  · rw [md5Update_eq_buffer ctx data h]
  · rw [md5Update_eq_blocks ctx data h]

theorem md5Update_buf_blocks (ctx : md5Context) (data : List Nat)
    (h : ¬ 64 - ctx.bytes % 64 > data.length) :
    (md5Update ctx data).buf =
      (processChunks
        (md5Transform ctx.buf (bytesToWords (writeBytes ctx.inbuf (64 - (64 - ctx.bytes % 64))
          (data.take (64 - ctx.bytes % 64)))))
        (writeBytes ctx.inbuf (64 - (64 - ctx.bytes % 64)) (data.take (64 - ctx.bytes % 64)))
        (data.drop (64 - ctx.bytes % 64))).1 := by
  rw [md5Update_eq_blocks ctx data h]

theorem md5Update_inbuf_blocks (ctx : md5Context) (data : List Nat)
    (h : ¬ 64 - ctx.bytes % 64 > data.length) :
    (md5Update ctx data).inbuf =
      writeBytes (processChunks
        (md5Transform ctx.buf (bytesToWords (writeBytes ctx.inbuf (64 - (64 - ctx.bytes % 64))
          (data.take (64 - ctx.bytes % 64)))))
        (writeBytes ctx.inbuf (64 - (64 - ctx.bytes % 64)) (data.take (64 - ctx.bytes % 64)))
        (data.drop (64 - ctx.bytes % 64))).2.1 0
        (processChunks
          (md5Transform ctx.buf (bytesToWords (writeBytes ctx.inbuf (64 - (64 - ctx.bytes % 64))
            (data.take (64 - ctx.bytes % 64)))))
          (writeBytes ctx.inbuf (64 - (64 - ctx.bytes % 64)) (data.take (64 - ctx.bytes % 64)))
          (data.drop (64 - ctx.bytes % 64))).2.2 := by
  rw [md5Update_eq_blocks ctx data h]

/-! md5Update preserves the representation invariant. -/

theorem reps_update (S A : List Nat) (ctx : md5Context) (h : reps S ctx) :
    reps (S ++ A) (md5Update ctx A) := by
  obtain ⟨hlen, hbytes, hbuf, htail⟩ := h
  have hr : ctx.bytes % 64 = S.length % 64 := by rw [hbytes]; omega
  have hS : S.take (64 * (S.length / 64)) ++ S.drop (64 * (S.length / 64)) = S :=
    List.take_append_drop _ S
  have hBlen : (S.take (64 * (S.length / 64))).length = 64 * (S.length / 64) := by
    simp
    omega
  have htlen : (S.drop (64 * (S.length / 64))).length = S.length % 64 := by
    simp
    omega
  have habsS : ∀ Y, absorb initWords (S.take (64 * (S.length / 64)) ++ Y) =
      absorb (absorb initWords S) Y := by
    intro Y
    rw [absorb_append _ _ _ _ hBlen ⟨_, rfl⟩]
    congr 1
    conv_rhs => rw [← hS]
    rw [absorb_append _ _ _ _ hBlen ⟨_, rfl⟩,
      absorb_of_lt (absorb initWords (S.take (64 * (S.length / 64))))
        (S.drop (64 * (S.length / 64))) (by rw [htlen]; omega)]
  have hSA : S ++ A = S.take (64 * (S.length / 64)) ++ (S.drop (64 * (S.length / 64)) ++ A) := by
    rw [← List.append_assoc, hS]
  have hlenSA : (S ++ A).length = S.length + A.length := List.length_append S A
  by_cases hc : 64 - ctx.bytes % 64 > A.length
  case pos =>
    rw [md5Update_eq_buffer ctx A hc]
    have hoff : 64 - (64 - ctx.bytes % 64) = S.length % 64 := by omega
    have hsmall : S.length % 64 + A.length < 64 := by omega
    refine ⟨?_, ?_, ?_, ?_⟩
    · show (writeBytes ctx.inbuf (64 - (64 - ctx.bytes % 64)) A).length = 64
      rw [hoff, writeBytes_length _ _ _ (by omega), hlen]
    · show (ctx.bytes + A.length) % 2 ^ 64 = (S ++ A).length % 2 ^ 64
      rw [hlenSA, hbytes]
      omega
    · show ctx.buf = absorb initWords (S ++ A)
      rw [hSA, habsS, absorb_of_lt _ _ (by simp only [List.length_append, htlen]; omega), hbuf]
    · show (writeBytes ctx.inbuf (64 - (64 - ctx.bytes % 64)) A).take ((S ++ A).length % 64) =
        (S ++ A).drop (64 * ((S ++ A).length / 64))
      have hm : (S ++ A).length % 64 = S.length % 64 + A.length := by rw [hlenSA]; omega
      have hq : (S ++ A).length / 64 = S.length / 64 := by rw [hlenSA]; omega
      rw [hm, hq, hoff, writeBytes_take ctx.inbuf _ A (by omega), htail,
        List.drop_append_of_le_length (by omega)]
  case neg =>
    have htA : 64 - S.length % 64 ≤ A.length := by omega
    have htq2 : (A.take (64 - S.length % 64)).length = 64 - S.length % 64 := by
      simp
      omega
    have hi1 : writeBytes ctx.inbuf (64 - (64 - ctx.bytes % 64)) (A.take (64 - ctx.bytes % 64)) =
        S.drop (64 * (S.length / 64)) ++ A.take (64 - S.length % 64) := by
      have hoff : 64 - (64 - ctx.bytes % 64) = ctx.bytes % 64 := by omega
      rw [hoff, hr, writeBytes, htq2, show S.length % 64 + (64 - S.length % 64) = 64 by omega,
        List.drop_eq_nil_of_le (by omega), List.append_nil, htail]
    have hi1len : (S.drop (64 * (S.length / 64)) ++ A.take (64 - S.length % 64)).length = 64 := by
      rw [List.length_append, htlen, htq2]
      omega
    have hbyteseq := md5Update_bytes ctx A
    have hbufeq := md5Update_buf_blocks ctx A hc
    have hinbufeq := md5Update_inbuf_blocks ctx A hc
    rw [hi1] at hbufeq hinbufeq
    simp only [processChunks] at hbufeq hinbufeq
    obtain ⟨hq1, hq2, hq3⟩ := processChunksK_spec
      ((A.drop (64 - ctx.bytes % 64)).length / 64)
      (md5Transform ctx.buf (bytesToWords
        (S.drop (64 * (S.length / 64)) ++ A.take (64 - S.length % 64))))
      (S.drop (64 * (S.length / 64)) ++ A.take (64 - S.length % 64))
      (A.drop (64 - ctx.bytes % 64)) hi1len rfl
    simp only [hr] at hq1 hq2 hq3 hbufeq hinbufeq
    have hAd : (A.drop (64 - S.length % 64)).length = A.length - (64 - S.length % 64) := by
      simp
    have htk64 : (S.drop (64 * (S.length / 64)) ++ A).take 64 =
        S.drop (64 * (S.length / 64)) ++ A.take (64 - S.length % 64) := by
      rw [List.take_append_eq_append_take, List.take_of_length_le (by rw [htlen]; omega), htlen]
    have hdk64 : (S.drop (64 * (S.length / 64)) ++ A).drop 64 =
        A.drop (64 - S.length % 64) := by
      rw [List.drop_append_eq_append_drop, List.drop_eq_nil_of_le (by rw [htlen]; omega),
        List.nil_append, htlen]
    have habs1 : absorb ctx.buf (S.drop (64 * (S.length / 64)) ++ A) =
        absorb (md5Transform ctx.buf (bytesToWords
          (S.drop (64 * (S.length / 64)) ++ A.take (64 - S.length % 64))))
          (A.drop (64 - S.length % 64)) := by
      rw [absorb_step _ _ (by simp only [List.length_append, htlen]; omega), htk64, hdk64]
    refine ⟨?_, ?_, ?_, ?_⟩
    · rw [hinbufeq, writeBytes_length _ _ _
        (by rw [hq2, hq3, List.drop_drop]; simp only [List.length_drop, Nat.zero_add]; omega)]
      exact hq2
    · rw [hbyteseq, hlenSA, hbytes]
      omega
    · rw [hbufeq, hq1, hSA, habsS, ← hbuf, habs1]
    · rw [hinbufeq, hq3, List.drop_drop, writeBytes, List.take_zero, List.nil_append]
      have hXlen : (A.drop (64 - S.length % 64 +
          64 * ((A.drop (64 - S.length % 64)).length / 64))).length = (S ++ A).length % 64 := by
        simp only [List.length_drop, hlenSA]
        omega
      rw [List.take_left' hXlen, List.drop_append_eq_append_drop,
        List.drop_eq_nil_of_le (show S.length ≤ 64 * ((S ++ A).length / 64) by omega),
        List.nil_append]
      congr 1
      omega

/-! Helper lemmas for the finalization proof. -/

theorem bytesToWords_append : ∀ (n : Nat) (x y : List Nat), x.length = n → 4 ∣ n →
    bytesToWords (x ++ y) = bytesToWords x ++ bytesToWords y := by
  intro n
  induction n using Nat.strong_induction_on with
  | _ n ih =>
    intro x y hlen hdvd
    rcases x with _ | ⟨b0, x⟩
    · simp [bytesToWords]
    rcases x with _ | ⟨b1, x⟩
    · simp at hlen; omega
    rcases x with _ | ⟨b2, x⟩
    · simp at hlen; omega
    rcases x with _ | ⟨b3, x⟩
    · simp at hlen; omega
    have hx : x.length = n - 4 := by simp at hlen; omega
    have h4 : (4 : Nat) ∣ n - 4 := by omega
    have hn4 : n - 4 < n := by simp at hlen; omega
    simp only [List.cons_append, bytesToWords]
    congr 1
    exact ih (n - 4) hn4 x y hx h4

theorem absorb_one_block (st blk : List Nat) (h : blk.length = 64) :
    absorb st blk = md5Transform st (bytesToWords blk) := by
  rw [absorb_step _ _ (by omega), List.take_of_length_le (by omega)]
  exact absorb_of_lt _ _ (by simp [h])

theorem absorb_split (S Y : List Nat) :
    absorb initWords (S.take (64 * (S.length / 64)) ++ Y) = absorb (absorb initWords S) Y := by
  have hBlen : (S.take (64 * (S.length / 64))).length = 64 * (S.length / 64) := by
    simp
    omega
  have htlen : (S.drop (64 * (S.length / 64))).length = S.length % 64 := by
    simp
    omega
  rw [absorb_append _ _ _ _ hBlen ⟨_, rfl⟩]
  congr 1
  conv_rhs => rw [← List.take_append_drop (64 * (S.length / 64)) S]
  rw [absorb_append _ _ _ _ hBlen ⟨_, rfl⟩,
    absorb_of_lt (absorb initWords (S.take (64 * (S.length / 64))))
      (S.drop (64 * (S.length / 64))) (by rw [htlen]; omega)]

theorem md5Final_eq_small (ctx : md5Context) (hsm : ctx.bytes % 64 < 56)
    (hl : ctx.inbuf.length = 64) :
    md5Final ctx = some (md5FinalWords ctx.buf
      ((ctx.inbuf.set (ctx.bytes % 64) 0x80).take (ctx.bytes % 64 + 1) ++
        (List.replicate (55 - ctx.bytes % 64) 0 ++
         (ctx.inbuf.set (ctx.bytes % 64) 0x80).drop 56)) ctx.bytes) := by
  rw [md5Final, setByte, if_pos (show ctx.bytes % 64 < ctx.inbuf.length by omega)]
  show (if (56 - 1 - ((ctx.bytes % 64 : Nat) : Int) < 0) then _ else _) = _
  rw [if_neg (by omega), memsetBytes,
    if_pos (show ctx.bytes % 64 + 1 + (56 - 1 - ((ctx.bytes % 64 : Nat) : Int)).toNat ≤
      (ctx.inbuf.set (ctx.bytes % 64) 0x80).length by rw [List.length_set]; omega)]
  show some (md5FinalWords _ _ _) = _
  have hidx : ctx.bytes % 64 + 1 + (56 - 1 - ((ctx.bytes % 64 : Nat) : Int)).toNat = 56 := by
    omega
  have harg : (56 - 1 - ((ctx.bytes % 64 : Nat) : Int)).toNat = 55 - ctx.bytes % 64 := by omega
  rw [hidx, harg]
  simp only [List.append_assoc]

theorem md5Final_eq_big (ctx : md5Context) (hbg : 56 ≤ ctx.bytes % 64)
    (hl : ctx.inbuf.length = 64) :
    md5Final ctx = some (md5FinalWords
      (md5Transform ctx.buf (bytesToWords
        ((ctx.inbuf.set (ctx.bytes % 64) 0x80).take (ctx.bytes % 64 + 1) ++
          (List.replicate (63 - ctx.bytes % 64) 0 ++
           (ctx.inbuf.set (ctx.bytes % 64) 0x80).drop 64))))
      (List.replicate 56 0 ++
        ((ctx.inbuf.set (ctx.bytes % 64) 0x80).take (ctx.bytes % 64 + 1) ++
          (List.replicate (63 - ctx.bytes % 64) 0 ++
           (ctx.inbuf.set (ctx.bytes % 64) 0x80).drop 64)).drop 56)
      ctx.bytes) := by
  have hmod : ctx.bytes % 64 < 64 := by omega
  rw [md5Final, setByte, if_pos (show ctx.bytes % 64 < ctx.inbuf.length by omega)]
  show (if (56 - 1 - ((ctx.bytes % 64 : Nat) : Int) < 0) then _ else _) = _
  rw [if_pos (by omega), memsetBytes,
    if_pos (show ctx.bytes % 64 + 1 + (56 - 1 - ((ctx.bytes % 64 : Nat) : Int) + 8).toNat ≤
      (ctx.inbuf.set (ctx.bytes % 64) 0x80).length by rw [List.length_set]; omega)]
  show (memsetBytes _ 0 56).bind _ = _
  rw [memsetBytes, if_pos (show (0 : Nat) + 56 ≤ _ by
    simp only [List.length_append, List.length_take, List.length_replicate,
      List.length_drop, List.length_set]
    omega)]
  show some (md5FinalWords _ _ _) = _
  have hidx : ctx.bytes % 64 + 1 + (56 - 1 - ((ctx.bytes % 64 : Nat) : Int) + 8).toNat = 64 := by
    omega
  have harg : (56 - 1 - ((ctx.bytes % 64 : Nat) : Int) + 8).toNat = 63 - ctx.bytes % 64 := by omega
  rw [hidx, harg, List.take_zero, List.nil_append, Nat.zero_add]
  simp only [List.append_assoc]

theorem wordsToBytes_two_length (w1 w2 : Nat) : (wordsToBytes [w1, w2]).length = 8 := by
  simp [wordsToBytes]

theorem md5Final_reps (S : List Nat) (ctx : md5Context) (h : reps S ctx) :
    md5Final ctx = some (md5digestSpec S, md5CtxZero) := by
  obtain ⟨hlen, hbytes, hbuf, htail⟩ := h
  have hr : ctx.bytes % 64 = S.length % 64 := by rw [hbytes]; omega
  have hrlt : S.length % 64 < 64 := by omega
  have htlen : (S.drop (64 * (S.length / 64))).length = S.length % 64 := by
    simp
    omega
  have hp1 : ctx.inbuf.set (ctx.bytes % 64) 0x80 =
      S.drop (64 * (S.length / 64)) ++ 0x80 :: ctx.inbuf.drop (S.length % 64 + 1) := by
    rw [hr, List.set_eq_take_cons_drop _ (by omega), htail]
  have htw : trailerWords ctx.bytes =
      [S.length * 8 % 2 ^ 64 % 2 ^ 32, S.length * 8 % 2 ^ 64 / 2 ^ 32] := by
    rw [hbytes, trailerWords_stored]
  have htrb : bytesToWords (wordsToBytes [S.length * 8 % 2 ^ 64 % 2 ^ 32,
      S.length * 8 % 2 ^ 64 / 2 ^ 32]) = [S.length * 8 % 2 ^ 64 % 2 ^ 32,
      S.length * 8 % 2 ^ 64 / 2 ^ 32] :=
    bytesToWords_wordsToBytes_two _ _ (by omega) (by omega)
  have htake : (ctx.inbuf.set (ctx.bytes % 64) 0x80).take (ctx.bytes % 64 + 1) =
      S.drop (64 * (S.length / 64)) ++ [0x80] := by
    rw [hp1, hr, List.take_append_eq_append_take,
      List.take_of_length_le (by rw [htlen]; omega), htlen,
      show S.length % 64 + 1 - S.length % 64 = 1 by omega]
    simp
  by_cases hs : S.length % 64 < 56
  case pos =>
    have hdrop56 : (ctx.inbuf.set (ctx.bytes % 64) 0x80).drop 56 = ctx.inbuf.drop 56 := by
      rw [hp1, List.drop_append_eq_append_drop,
        List.drop_eq_nil_of_le (by rw [htlen]; omega), List.nil_append, htlen,
        show 56 - S.length % 64 = (55 - S.length % 64) + 1 by omega,
        List.drop_succ_cons, List.drop_drop]
      congr 1
      omega
    rw [md5Final_eq_small ctx (by omega) hlen, htake, hdrop56, hr]
    have hblk : (S.drop (64 * (S.length / 64)) ++ [0x80]) ++
        (List.replicate (55 - S.length % 64) 0 ++ ctx.inbuf.drop 56) =
        (S.drop (64 * (S.length / 64)) ++ 0x80 :: List.replicate (55 - S.length % 64) 0) ++
          ctx.inbuf.drop 56 := by
      simp [List.append_assoc]
    rw [hblk, md5FinalWords,
      List.take_left' (by rw [List.length_append, htlen]; simp; omega), htw]
    have hpz : padZeros S.length = 55 - S.length % 64 := by rw [padZeros]; omega
    have hsp : md5pad S = S.take (64 * (S.length / 64)) ++
        (S.drop (64 * (S.length / 64)) ++ (0x80 :: (List.replicate (55 - S.length % 64) 0 ++
          wordsToBytes [S.length * 8 % 2 ^ 64 % 2 ^ 32, S.length * 8 % 2 ^ 64 / 2 ^ 32]))) := by
      rw [md5pad, hpz, ← List.append_assoc, List.take_append_drop]
    have hgr : S.drop (64 * (S.length / 64)) ++ (0x80 :: (List.replicate (55 - S.length % 64) 0 ++
        wordsToBytes [S.length * 8 % 2 ^ 64 % 2 ^ 32, S.length * 8 % 2 ^ 64 / 2 ^ 32])) =
        (S.drop (64 * (S.length / 64)) ++ 0x80 :: List.replicate (55 - S.length % 64) 0) ++
          wordsToBytes [S.length * 8 % 2 ^ 64 % 2 ^ 32, S.length * 8 % 2 ^ 64 / 2 ^ 32] := by
      rw [List.append_assoc, List.cons_append]
    rw [md5digestSpec, hsp, absorb_split, ← hbuf, hgr,
      absorb_one_block _ _ (by
        simp only [List.length_append, List.length_cons, List.length_replicate, htlen,
          wordsToBytes_two_length]
        omega),
      bytesToWords_append 56
        (S.drop (64 * (S.length / 64)) ++ 0x80 :: List.replicate (55 - S.length % 64) 0)
        (wordsToBytes [S.length * 8 % 2 ^ 64 % 2 ^ 32, S.length * 8 % 2 ^ 64 / 2 ^ 32])
        (by
          simp only [List.length_append, List.length_cons, List.length_replicate, htlen]
          omega) (by omega), htrb]
  case neg =>
    have hdrop64 : (ctx.inbuf.set (ctx.bytes % 64) 0x80).drop 64 = [] :=
      List.drop_eq_nil_of_le (by rw [List.length_set]; omega)
    rw [md5Final_eq_big ctx (by omega) hlen, htake, hdrop64, hr]
    have hblk : (S.drop (64 * (S.length / 64)) ++ [0x80]) ++
        (List.replicate (63 - S.length % 64) 0 ++ ([] : List Nat)) =
        S.drop (64 * (S.length / 64)) ++ 0x80 :: List.replicate (63 - S.length % 64) 0 := by
      simp [List.append_assoc]
    rw [hblk, md5FinalWords,
      List.take_left' (show (List.replicate 56 (0 : Nat)).length = 56 by simp), htw]
    have hblk1len : (S.drop (64 * (S.length / 64)) ++
        0x80 :: List.replicate (63 - S.length % 64) 0).length = 64 := by
      simp only [List.length_append, List.length_cons, List.length_replicate, htlen]
      omega
    have hpz : padZeros S.length = 119 - S.length % 64 := by rw [padZeros]; omega
    have hsplitrep : List.replicate (119 - S.length % 64) (0 : Nat) =
        List.replicate (63 - S.length % 64) 0 ++ List.replicate 56 0 := by
      rw [← List.replicate_add]
      congr 1
      omega
    have hsp : md5pad S = S.take (64 * (S.length / 64)) ++
        (S.drop (64 * (S.length / 64)) ++ (0x80 :: (List.replicate (63 - S.length % 64) 0 ++
          (List.replicate 56 0 ++
            wordsToBytes [S.length * 8 % 2 ^ 64 % 2 ^ 32, S.length * 8 % 2 ^ 64 / 2 ^ 32])))) := by
      rw [md5pad, hpz, hsplitrep, List.append_assoc,
        ← List.append_assoc (S.take (64 * (S.length / 64))) (S.drop (64 * (S.length / 64))),
        List.take_append_drop]
    have hgr : S.drop (64 * (S.length / 64)) ++ (0x80 :: (List.replicate (63 - S.length % 64) 0 ++
        (List.replicate 56 0 ++
          wordsToBytes [S.length * 8 % 2 ^ 64 % 2 ^ 32, S.length * 8 % 2 ^ 64 / 2 ^ 32]))) =
        (S.drop (64 * (S.length / 64)) ++ 0x80 :: List.replicate (63 - S.length % 64) 0) ++
          (List.replicate 56 0 ++
            wordsToBytes [S.length * 8 % 2 ^ 64 % 2 ^ 32, S.length * 8 % 2 ^ 64 / 2 ^ 32]) := by
      rw [List.append_assoc, List.cons_append]
    rw [md5digestSpec, hsp, absorb_split, ← hbuf, hgr,
      absorb_append 64 _ _ _ hblk1len ⟨1, rfl⟩,
      absorb_one_block ctx.buf _ hblk1len,
      absorb_one_block _ _ (by
        simp only [List.length_append, List.length_replicate, wordsToBytes_two_length]),
      bytesToWords_append 56 (List.replicate 56 0)
        (wordsToBytes [S.length * 8 % 2 ^ 64 % 2 ^ 32, S.length * 8 % 2 ^ 64 / 2 ^ 32])
        (by simp) (by omega), htrb]

/-! Initial representation and folding over update calls. -/

instance repsDecidable (S : List Nat) (ctx : md5Context) : Decidable (reps S ctx) := by
  unfold reps
  exact inferInstance

theorem reps_init0 : reps [] (md5Init md5CtxZero) := by decide

theorem reps_foldl (pieces : List (List Nat)) :
    ∀ (S : List Nat) (ctx : md5Context), reps S ctx →
      reps (S ++ pieces.flatten) (List.foldl md5Update ctx pieces) := by
  induction pieces with
  | nil =>
    intro S ctx h
    simpa using h
  | cons p ps ih =>
    intro S ctx h
    have h2 := ih (S ++ p) (md5Update ctx p) (reps_update S p ctx h)
    simp only [List.flatten_cons, List.foldl_cons, ← List.append_assoc]
    exact h2

theorem callsFold_reps : ∀ (ps : List (List Nat)) (S : List Nat) (ctx : md5Context),
    reps S ctx →
    md5UpdateCallsFold ps ctx = (S.length + ps.flatten.length) / 64 - S.length / 64 := by
  intro ps
  induction ps with
  | nil =>
    intro S ctx h
    simp [md5UpdateCallsFold]
  | cons p ps ih =>
    intro S ctx h
    rw [md5UpdateCallsFold, ih (S ++ p) _ (reps_update S p ctx h)]
    have hcalls : md5UpdateCalls ctx p = (S.length + p.length) / 64 - S.length / 64 := by
      obtain ⟨h1, hby, _, _⟩ := h
      have hr : ctx.bytes % 64 = S.length % 64 := by rw [hby]; omega
      simp only [md5UpdateCalls, hr]
      by_cases hc : 64 - S.length % 64 > p.length
      · rw [if_pos hc]
        omega
      · rw [if_neg hc]
        omega
    rw [hcalls]
    simp only [List.flatten_cons, List.length_append]
    omega

/-! Claim theorems. -/

set_option maxRecDepth 10000 in
/-- C1: the one-shot digest produces the MD5 known-answer values for the
    empty input, for the 3-byte input abc, and for the 43-byte input
    The quick brown fox jumps over the lazy dog. -/
theorem md5_known_answers :
    md5 [] = some [0xd4, 0x1d, 0x8c, 0xd9, 0x8f, 0x00, 0xb2, 0x04,
      0xe9, 0x80, 0x09, 0x98, 0xec, 0xf8, 0x42, 0x7e] ∧
    md5 [97, 98, 99] = some [0x90, 0x01, 0x50, 0x98, 0x3c, 0xd2, 0x4f, 0xb0,
      0xd6, 0x96, 0x3f, 0x7d, 0x28, 0xe1, 0x7f, 0x72] ∧
    md5 [84, 104, 101, 32, 113, 117, 105, 99, 107, 32, 98, 114, 111, 119, 110, 32,
      102, 111, 120, 32, 106, 117, 109, 112, 115, 32, 111, 118, 101, 114, 32, 116,
      104, 101, 32, 108, 97, 122, 121, 32, 100, 111, 103] =
      some [0x9e, 0x10, 0x7d, 0x9d, 0x37, 0x2b, 0xb6, 0x82,
        0x6b, 0xd8, 0x1d, 0x35, 0x42, 0xa4, 0x19, 0xd6] := by
  decide

/-- C2: chunk invariance.  For every list of pieces, running md5Init, one
    md5Update per piece in order, and md5Final yields exactly the digest
    of the one-shot md5 on the concatenation of the pieces, and that
    digest exists.  Zero-length and single-byte pieces are instances. -/
theorem md5_chunk_invariance (pieces : List (List Nat)) :
    (md5Final (List.foldl md5Update (md5Init md5CtxZero) pieces)).map Prod.fst =
      md5 pieces.flatten ∧ (md5 pieces.flatten).isSome = true := by
  have h1 := reps_foldl pieces [] _ reps_init0
  simp only [List.nil_append] at h1
  have h2 := reps_update [] pieces.flatten _ reps_init0
  simp only [List.nil_append] at h2
  rw [md5, md5Final_reps _ _ h1, md5Final_reps _ _ h2]
  exact ⟨rfl, rfl⟩

set_option maxRecDepth 10000 in
/-- C3: the compression step computes exactly the spec schedule: 64
    rounds in 4 groups of 16 with the four nonlinear functions, the fixed
    per-round index/constant/rotation table with rotation sets
    7,12,17,22 / 5,9,14,20 / 4,11,16,23 / 6,10,15,21, the round formula
    b + rotl(a + F(b,c,d) + word + constant, s) with register roles
    cycling (a,b,c,d) to (d,a,b,c), and the final modular addition of
    the registers to the original state words. -/
theorem md5Transform_schedule (buf blk : List Nat) :
    md5Transform buf blk = md5TransformSpec buf blk := by
  have hstep : ∀ (f : Nat → Nat → Nat → Nat) (w x y z wd k s : Nat),
      MD5STEP f w x y z (mask32 (wd + k)) s =
        mask32 (rotl32 (mask32 (w + f x y z + (wd + k))) s + x) := by
    intro f w x y z wd k s
    have h : mask32 (w + f x y z + mask32 (wd + k)) = mask32 (w + f x y z + (wd + k)) := by
      simp [mask32, Nat.add_mod]
    simp [MD5STEP, h]
  simp only [md5Transform, md5TransformSpec, md5RoundTable, List.foldl_cons, List.foldl_nil,
    md5RoundSpec, hstep, F1, F2, F3, F4, F1spec, F2spec, F3spec, F4spec]

/-- C4: the padding algorithm of finalize.  For an accumulator holding
    stream S, md5Final produces exactly the digest obtained by absorbing
    the spec padding of S: append 0x80, zero bytes until the length is
    56 mod 64 (an extra block is absorbed when the buffered count is at
    least 56), then the 8-byte trailer, absorbing each completed block. -/
theorem md5Final_padding (S : List Nat) (ctx : md5Context) (h : reps S ctx) :
    md5Final ctx = some (wordsToBytes (absorb initWords (md5pad S)), md5CtxZero) :=
  md5Final_reps S ctx h

/-- Witness for C4, exercising the extra-block branch (60 buffered
    bytes). -/
theorem md5Final_padding_witness :
    md5Final (md5Update (md5Init md5CtxZero) (List.replicate 60 7)) =
      some (wordsToBytes (absorb initWords (md5pad (List.replicate 60 7))), md5CtxZero) :=
  md5Final_padding (List.replicate 60 7) _ (by decide)

/-- C5: the trailer holds the bit count total * 8 reduced modulo 2 ^ 64,
    low 32-bit word first (block word 14, byte offsets 56-59) and high
    word second (block word 15, byte offsets 60-63); higher bits of the
    bit count are discarded, so trailers agree for byte counts congruent
    modulo 2 ^ 61. -/
theorem md5Final_trailer (n : Nat) :
    trailerWords (n % 2 ^ 64) = [n * 8 % 2 ^ 64 % 2 ^ 32, n * 8 % 2 ^ 64 / 2 ^ 32] ∧
    ∀ m : Nat, m % 2 ^ 61 = n % 2 ^ 61 →
      trailerWords (m % 2 ^ 64) = trailerWords (n % 2 ^ 64) := by
  refine ⟨trailerWords_stored n, ?_⟩
  intro m hm
  rw [trailerWords_stored, trailerWords_stored]
  have h1 : m * 8 % 2 ^ 64 = n * 8 % 2 ^ 64 := by omega
  rw [h1]

/-- Witness for C5: byte counts 5 and 2 ^ 61 + 5 produce the same
    trailer. -/
theorem md5Final_trailer_witness :
    trailerWords ((2 ^ 61 + 5) % 2 ^ 64) = trailerWords (5 % 2 ^ 64) :=
  (md5Final_trailer 5).2 (2 ^ 61 + 5) (by decide)

set_option maxRecDepth 1000000 in
/-- C6 counterexample: finalizing the zeroed context left behind by a
    previous md5Final is not rejected; md5Final returns a digest instead
    of failing, so no invalid-state error is signaled. -/
theorem md5Final_after_final_not_rejected : md5Final md5CtxZero ≠ none := by
  decide

set_option maxRecDepth 1000000 in
/-- C6 as amended: the source performs no initialization or lifecycle
    checks.  Calling md5Final on the zeroed accumulator left by a prior
    md5Final silently produces a digest (the one of the all-zero state),
    and md5Update on it silently absorbs bytes; neither signals a
    contract violation. -/
theorem md5Final_after_final_silent :
    md5Final md5CtxZero = some ([0xb0, 0xe6, 0x41, 0xc9, 0x98, 0xcc, 0x3e, 0xae,
      0x6f, 0xa2, 0xf8, 0x72, 0x6d, 0x98, 0xcd, 0xdd], md5CtxZero) ∧
    md5Update md5CtxZero [97] = ⟨[0, 0, 0, 0], 1, 97 :: List.replicate 63 0⟩ := by
  decide

/-- C7: whenever md5Final succeeds, the returned accumulator has all
    fields zeroed: state words, byte counter and block buffer. -/
theorem md5Final_clears (ctx : md5Context) (d : List Nat) (c2 : md5Context)
    (h : md5Final ctx = some (d, c2)) :
    c2.buf = [0, 0, 0, 0] ∧ c2.bytes = 0 ∧ c2.inbuf = List.replicate 64 0 := by
  have hz : c2 = md5CtxZero := by
    rw [md5Final] at h
    cases hsb : setByte ctx.inbuf (ctx.bytes % 64) 0x80 with
    | none =>
      rw [hsb] at h
      simp at h
    | some p1 =>
      rw [hsb] at h
      simp only [Option.some_bind] at h
      split at h
      · rw [Option.bind_eq_some] at h
        obtain ⟨p2, _, h⟩ := h
        rw [Option.bind_eq_some] at h
        obtain ⟨p3, _, h⟩ := h
        simp only [md5FinalWords, Option.some.injEq, Prod.mk.injEq] at h
        exact h.2.symm
      · rw [Option.bind_eq_some] at h
        obtain ⟨p2, _, h⟩ := h
        simp only [md5FinalWords, Option.some.injEq, Prod.mk.injEq] at h
        exact h.2.symm
  subst hz
  exact ⟨rfl, rfl, rfl⟩

set_option maxRecDepth 1000000 in
/-- Witness for C7 at the accumulator of the empty stream. -/
theorem md5Final_clears_witness :
    md5CtxZero.buf = [0, 0, 0, 0] ∧ md5CtxZero.bytes = 0 ∧
      md5CtxZero.inbuf = List.replicate 64 0 := by
  have h : md5Final (md5Init md5CtxZero) =
      some ([0xd4, 0x1d, 0x8c, 0xd9, 0x8f, 0x00, 0xb2, 0x04,
        0xe9, 0x80, 0x09, 0x98, 0xec, 0xf8, 0x42, 0x7e], md5CtxZero) := by
    decide
  exact md5Final_clears (md5Init md5CtxZero) _ md5CtxZero h

/-- C8 counterexample: the byte counter is a wrapping 64-bit quantity,
    so after absorbing two pieces of 2 ^ 63 zeros the counter is 0, not
    the stream length 2 ^ 64. -/
theorem md5Update_counter_wraps :
    ¬ (List.foldl md5Update (md5Init md5CtxZero)
        [List.replicate (2 ^ 63) 0, List.replicate (2 ^ 63) 0]).bytes =
      ([List.replicate (2 ^ 63) 0, List.replicate (2 ^ 63) 0] : List (List Nat)).flatten.length := by
  have h1 : (List.foldl md5Update (md5Init md5CtxZero)
      [List.replicate (2 ^ 63) 0, List.replicate (2 ^ 63) 0]).bytes = 0 := by
    rw [List.foldl_cons, List.foldl_cons, List.foldl_nil, md5Update_bytes, md5Update_bytes,
      List.length_replicate, show (md5Init md5CtxZero).bytes = 0 from rfl]
    norm_num
  have h2 : ([List.replicate (2 ^ 63) 0, List.replicate (2 ^ 63) 0] :
      List (List Nat)).flatten.length = 2 ^ 64 := by
    rw [List.flatten_cons, List.flatten_cons, List.flatten_nil, List.append_nil,
      List.length_append, List.length_replicate]
    norm_num
  intro hcl
  omega

/-- C8 as amended: after init and any sequence of update calls
    absorbing total stream S, the counter equals the length of S modulo
    2 ^ 64 (equal to the length whenever it is below 2 ^ 64), the state
    words are the compression of exactly the first length / 64 blocks of
    S, the number of compression invocations is exactly length / 64, the
    first length mod 64 buffer bytes are the trailing bytes of S, and
    buffer bytes beyond that offset are never read: any context agreeing
    on the state, the counter and that prefix finalizes identically. -/
theorem md5Update_buffering (pieces : List (List Nat)) :
    (List.foldl md5Update (md5Init md5CtxZero) pieces).bytes =
      pieces.flatten.length % 2 ^ 64 ∧
    (List.foldl md5Update (md5Init md5CtxZero) pieces).buf =
      absorb initWords pieces.flatten ∧
    (List.foldl md5Update (md5Init md5CtxZero) pieces).inbuf.take
        (pieces.flatten.length % 64) =
      pieces.flatten.drop (64 * (pieces.flatten.length / 64)) ∧
    md5UpdateCallsFold pieces (md5Init md5CtxZero) = pieces.flatten.length / 64 ∧
    ∀ ctx2 : md5Context,
      ctx2.buf = (List.foldl md5Update (md5Init md5CtxZero) pieces).buf →
      ctx2.bytes = (List.foldl md5Update (md5Init md5CtxZero) pieces).bytes →
      ctx2.inbuf.length = 64 →
      ctx2.inbuf.take (pieces.flatten.length % 64) =
        (List.foldl md5Update (md5Init md5CtxZero) pieces).inbuf.take
          (pieces.flatten.length % 64) →
      md5Final ctx2 = md5Final (List.foldl md5Update (md5Init md5CtxZero) pieces) := by
  have h1 := reps_foldl pieces [] _ reps_init0
  simp only [List.nil_append] at h1
  obtain ⟨ha, hb, hc, hd⟩ := h1
  refine ⟨hb, hc, hd, ?_, ?_⟩
  · rw [callsFold_reps pieces [] _ reps_init0]
    simp
  · intro ctx2 e1 e2 e3 e4
    have h2 : reps pieces.flatten ctx2 :=
      ⟨e3, by rw [e2, hb], by rw [e1, hc], by rw [e4, hd]⟩
    rw [md5Final_reps _ _ h2, md5Final_reps _ _ ⟨ha, hb, hc, hd⟩]

set_option maxRecDepth 1000000 in
/-- Witness for C8: a context with different stale buffer bytes beyond
    the meaningful prefix finalizes to the same result. -/
theorem md5Update_buffering_witness :
    md5Final ⟨[0x67452301, 0xefcdab89, 0x98badcfe, 0x10325476], 1, 1 :: List.replicate 63 7⟩ =
      md5Final (List.foldl md5Update (md5Init md5CtxZero) [[1]]) :=
  (md5Update_buffering [[1]]).2.2.2.2
    ⟨[0x67452301, 0xefcdab89, 0x98badcfe, 0x10325476], 1, 1 :: List.replicate 63 7⟩
    (by decide) (by decide) (by decide) (by decide)

/-- C9: every buffer access in md5Final is in bounds.  The 0x80 marker
    goes to offset bytes mod 64, always below 64, and each zero fill
    stays inside the 64-byte block, so with Option-returning
    bounds-checked writes md5Final never returns none for an accumulator
    whose block buffer has its 64 bytes. -/
theorem md5Final_in_bounds (ctx : md5Context) (h : ctx.inbuf.length = 64) :
    (md5Final ctx).isSome = true := by
  by_cases hs : ctx.bytes % 64 < 56
  · rw [md5Final_eq_small ctx hs h]
    rfl
  · rw [md5Final_eq_big ctx (by omega) h]
    rfl

set_option maxRecDepth 1000000 in
/-- Witness for C9 at the freshly initialized accumulator. -/
theorem md5Final_in_bounds_witness : (md5Final (md5Init md5CtxZero)).isSome = true :=
  md5Final_in_bounds (md5Init md5CtxZero) (by decide)

/-- C10: a zero-length update is an identity on every accumulator whose
    byte counter is a valid 64-bit value: state words, buffer and
    counter are unchanged and the compression step runs zero times. -/
theorem md5Update_nil_id (ctx : md5Context) (h : ctx.bytes < 2 ^ 64) :
    md5Update ctx [] = ctx ∧ md5UpdateCalls ctx [] = 0 := by
  constructor
  · rw [md5Update_eq_buffer ctx [] (by simp; omega), writeBytes_nil,
      show (ctx.bytes + ([] : List Nat).length) % 2 ^ 64 = ctx.bytes by simp; omega]
  · simp only [md5UpdateCalls]
    rw [if_pos (by simp; omega)]

/-- Witness for C10 at the freshly initialized accumulator. -/
theorem md5Update_nil_id_witness :
    md5Update (md5Init md5CtxZero) [] = md5Init md5CtxZero ∧
      md5UpdateCalls (md5Init md5CtxZero) [] = 0 :=
  md5Update_nil_id (md5Init md5CtxZero) (by decide)
